import Mathlib

/-!
Verification of the httpd2 static file server (src/main.rs).

The development shallowly embeds the request-to-response pipeline of the
server: the path normalizer (PercentDecoder and Sanitizer iterators and
sanitize_path), the picky_open family of filesystem-policy operations over an
abstract filesystem, the request handler serve_files, and the privilege-drop
and startup sequencing of drop_privs and start as syscall traces.
-/

namespace Httpd2

/-! ## Path normalizer: percent decoding (src/main.rs, PercentDecoder) -/

/-- Hex digit value of a character; `hexit` from PercentDecoder::next
(src/main.rs lines 340-347). The source matches the inclusive character
ranges 0-9, A-F and a-f and subtracts the range base; the ranges are stated
here on code points, which is the same ordering. -/
def hexit (c : Char) : Option Nat :=
  if '0'.toNat ≤ c.toNat ∧ c.toNat ≤ '9'.toNat then
    some (c.toNat - '0'.toNat)
  else if 'A'.toNat ≤ c.toNat ∧ c.toNat ≤ 'F'.toNat then
    some (c.toNat - 'A'.toNat + 10)
  else if 'a'.toNat ≤ c.toNat ∧ c.toNat ≤ 'f'.toNat then
    some (c.toNat - 'a'.toNat + 10)
  else
    none

/-- The PercentDecoder iterator (src/main.rs lines 336-378), written as a
function on the whole character stream. On `%` it consumes up to two further
characters; if both exist and are hex digits it emits the decoded character
`(x << 4 | y) as char` and continues after them; otherwise it emits the
literal `%` and then unspools the consumed characters (PercentState::Unspool2
and Unspool) before resuming with the rest of the stream. -/
def percentDecode : List Char → List Char
  | [] => []
  | '%' :: [] => ['%']
  | '%' :: [x] => ['%', x]
  | '%' :: x :: y :: rest =>
    match hexit x, hexit y with
    | some hx, some hy => Char.ofNat (hx <<< 4 ||| hy) :: percentDecode rest
    | _, _ => '%' :: x :: y :: percentDecode rest
  | c :: rest => c :: percentDecode rest

/-! ## Path normalizer: sanitizer (src/main.rs, Sanitizer) -/

/-- SanitizerState (src/main.rs lines 250-256). The source also has the
states EmitDot and EmitSlash, which emit the constant prefix `./` before any
input is consumed and then transition to Slash; `sanitize` below emits that
prefix directly, so only the two input-consuming states are represented. -/
inductive SanState
  | Normal
  | Slash
deriving DecidableEq, Repr

/-- The input-consuming loop of Sanitizer::next (src/main.rs lines 274-295):
NUL becomes `_`; `/` in Normal state is emitted and enters Slash state; `/`
in Slash state is dropped; `.` in Slash state becomes `:`; anything else is
emitted verbatim in Normal state. -/
def sanitizeFrom : SanState → List Char → List Char
  | _, [] => []
  | _, '\x00' :: rest => '_' :: sanitizeFrom SanState.Normal rest
  | SanState.Normal, '/' :: rest => '/' :: sanitizeFrom SanState.Slash rest
  | SanState.Slash, '/' :: rest => sanitizeFrom SanState.Slash rest
  | SanState.Slash, '.' :: rest => ':' :: sanitizeFrom SanState.Normal rest
  | _, c :: rest => c :: sanitizeFrom SanState.Normal rest

/-- The full Sanitizer iterator: the EmitDot and EmitSlash states emit `./`
and leave the machine in Slash state (src/main.rs lines 261-272). -/
def sanitize (l : List Char) : List Char :=
  '.' :: '/' :: sanitizeFrom SanState.Slash l

/-- sanitize_path (src/main.rs lines 305-307): percent-decode the raw path,
then sanitize it. -/
def sanitize_path (path : String) : String :=
  ⟨sanitize (percentDecode path.data)⟩

/-! ## Content types (src/main.rs, map_content_type) -/

/-- Model of std::path::Path::extension for Unix path strings: the portion of
the final path component after its last dot. It is none when the final
component is empty or is the special component dot-dot, and none when the
component has no dot after its first character (a leading dot marks a hidden
file, not an extension boundary). -/
def pathExt (p : String) : Option String :=
  let name := (p.data.reverse.takeWhile (fun c => c ≠ '/')).reverse
  if name = ['.', '.'] then none
  else
    match name with
    | [] => none
    | _ :: rest =>
      if '.' ∈ rest then some ⟨(name.reverse.takeWhile (fun c => c ≠ '.')).reverse⟩
      else none

/-- map_content_type (src/main.rs lines 228-237): fixed table keyed on the
file extension. -/
def map_content_type (path : String) : String :=
  match pathExt path with
  | some "html" => "text/html"
  | some "css" => "text/css"
  | some "js" => "text/javascript"
  | some "woff2" => "font/woff2"
  | some "png" => "image/png"
  | _ => "text/plain"

/-! ## Filesystem model and the picky_open family -/

/-- Kind of the object found at a path, from the stat of the opened handle. -/
inductive ObjKind
  | file
  | dir
  | other
deriving DecidableEq, Repr

/-- Stat data of an object as observed on the opened handle: Unix permission
mode, object kind, byte length, and modification time. The modification time
is optional because std::fs::Metadata::modified can fail on platforms or
filesystems that do not record it; picky_open unwraps it. Time is modelled
as a natural number; only its order matters. -/
structure FsObject where
  mode : Nat
  kind : ObjKind
  len : Nat
  modified : Option Nat
deriving DecidableEq, Repr

/-- An abstract filesystem: what (if anything) opening a path yields. A none
result covers both open failure and stat failure. -/
def Fs : Type := String → Option FsObject

/-- FileOrDir (src/main.rs lines 78-93). The file handle is identified by
the path it was opened from. -/
inductive FileOrDir
  | File (file : String) (content_type : String) (len : Nat) (modified : Nat)
  | Dir
deriving DecidableEq, Repr

/-- Outcome of one of the picky_open operations: a successful value, an
io::Error (every failure is reported as NotFound), or a panic (the unwrap
of a missing modification time unwinds rather than returning). -/
inductive POutcome (α : Type)
  | ok (val : α)
  | err
  | panic
deriving DecidableEq, Repr

/-- picky_open (src/main.rs lines 110-140): open the path, stat the opened
handle, reject any mode that is not user+group+world readable or that is
world-executable without being user-executable, then dispatch on the object
kind. The modification time is unwrapped, so its absence panics. -/
def picky_open (fs : Fs) (path : String) : POutcome FileOrDir :=
  match fs path with
  | none => POutcome.err
  | some obj =>
    if obj.mode &&& 0o444 ≠ 0o444 ∨ obj.mode &&& 0o101 = 0o001 then POutcome.err
    else if obj.kind = ObjKind.file then
      match obj.modified with
      | some m => POutcome.ok (FileOrDir.File path (map_content_type path) obj.len m)
      | none => POutcome.panic
    else if obj.kind = ObjKind.dir then POutcome.ok FileOrDir.Dir
    else POutcome.err

/-- picky_open_with_redirect (src/main.rs lines 148-160): when the first open
finds a directory, append /index.html to the path buffer and reopen once,
returning that second result unconditionally. The returned string is the
final contents of the mutable path buffer. -/
def picky_open_with_redirect (fs : Fs) (path : String) :
    String × POutcome FileOrDir :=
  match picky_open fs path with
  | POutcome.ok FileOrDir.Dir =>
    let p2 := path ++ "/index.html"
    (p2, picky_open fs p2)
  | r => (path, r)

/-- picky_open_with_redirect_and_gzip (src/main.rs lines 176-223): when the
redirecting open finds a regular file, append .gz to the path buffer and
probe it; if the probe finds a regular file at least as fresh as the
original, substitute its handle and length while keeping the original
content type and modification time, and report the gzip encoding; in every
other probe outcome serve the original with no encoding. A panic in the
probe unwinds through the caller. -/
def picky_open_with_redirect_and_gzip (fs : Fs) (path : String) :
    String × POutcome (FileOrDir × Option String) :=
  match picky_open_with_redirect fs path with
  | (p, POutcome.ok FileOrDir.Dir) => (p, POutcome.ok (FileOrDir.Dir, none))
  | (p, POutcome.ok (FileOrDir.File f ct len m)) =>
    let pg := p ++ ".gz"
    match picky_open fs pg with
    | POutcome.ok (FileOrDir.File f2 _ len2 m2) =>
      if m ≤ m2 then (pg, POutcome.ok (FileOrDir.File f2 ct len2 m, some "gzip"))
      else (pg, POutcome.ok (FileOrDir.File f ct len m, none))
    | POutcome.panic => (pg, POutcome.panic)
    | _ => (pg, POutcome.ok (FileOrDir.File f ct len m, none))
  | (p, POutcome.err) => (p, POutcome.err)
  | (p, POutcome.panic) => (p, POutcome.panic)

/-! ## Request handler (src/main.rs, serve_files) -/

/-- HTTP request methods relevant to serve_files dispatch. -/
inductive Method
  | GET
  | HEAD
  | POST
  | PUT
  | DELETE
  | OPTIONS
deriving DecidableEq, Repr

/-- The observable parts of the response serve_files builds: status code,
the four resource headers, and the handle streamed as the body (none means
an empty body). -/
structure Response where
  status : Nat
  contentLength : Option Nat
  contentType : Option String
  lastModified : Option Nat
  contentEncoding : Option String
  body : Option String
deriving DecidableEq, Repr

/-- Response::new(Body::empty()) with status set to NOT_FOUND and no headers
inserted: the bare 404 used for every failure. -/
def notFoundResponse : Response :=
  { status := 404, contentLength := none, contentType := none,
    lastModified := none, contentEncoding := none, body := none }

/-- The Accept-Encoding scan of serve_files (src/main.rs lines 391-399):
gzip is accepted when any header value, split on commas with items trimmed,
contains the exact token gzip. -/
def acceptsGzip (headers : List String) : Bool :=
  headers.any (fun h => (h.splitOn ",").any (fun item => item.trim = "gzip"))

/-- The content-encoding selection of serve_files (src/main.rs lines
413-419): the gzip-aware open when gzip is accepted, otherwise the
redirecting open with the encoding mapped to none. -/
def selectVariant (fs : Fs) (gz : Bool) (path : String) :
    String × POutcome (FileOrDir × Option String) :=
  if gz then picky_open_with_redirect_and_gzip fs path
  else
    match picky_open_with_redirect fs path with
    | (p, POutcome.ok f) => (p, POutcome.ok (f, none))
    | (p, POutcome.err) => (p, POutcome.err)
    | (p, POutcome.panic) => (p, POutcome.panic)

/-- The response construction of serve_files (src/main.rs lines 421-477):
a File result yields 200 with the four headers and, for GET only, the file
as body; a Dir result or an error yields the bare 404. A panic produces no
response. -/
def handleOutcome (method : Method) (o : POutcome (FileOrDir × Option String)) :
    Option Response :=
  match o with
  | POutcome.ok (FileOrDir.File f ct len m, enc) =>
    some { status := 200, contentLength := some len, contentType := some ct,
           lastModified := some m, contentEncoding := enc,
           body := if method = Method.GET then some f else none }
  | POutcome.ok (FileOrDir.Dir, _) => some notFoundResponse
  | POutcome.err => some notFoundResponse
  | POutcome.panic => none

/-- serve_files (src/main.rs lines 387-486): scan Accept-Encoding, dispatch
on the method (GET and HEAD run the pipeline on the sanitized path, every
other method gets the bare 404), and build the response. -/
def serve_files (fs : Fs) (method : Method) (rawPath : String)
    (headers : List String) : Option Response :=
  let accept_gzip := acceptsGzip headers
  match method with
  | Method.GET =>
    handleOutcome Method.GET (selectVariant fs accept_gzip (sanitize_path rawPath)).2
  | Method.HEAD =>
    handleOutcome Method.HEAD (selectVariant fs accept_gzip (sanitize_path rawPath)).2
  | _ => some notFoundResponse

/-! ## Arguments and privilege drop (src/main.rs, get_args / drop_privs / start) -/

/-- Args (src/main.rs lines 491-499). The bind address is kept as the raw
string; UID and GID are the parsed numeric ids. -/
structure Args where
  root : String
  key_path : String
  cert_path : String
  should_chroot : Bool
  addr : String
  uid : Option Nat
  gid : Option Nat
deriving DecidableEq, Repr

/-- The command line as clap presents it after validation: whether the
chroot flag was passed, the optional option values, and the required DIR
positional. UID and GID carry the already-validated numeric values. -/
structure CmdMatches where
  chroot_present : Bool
  addr : Option String
  uid : Option Nat
  gid : Option Nat
  key_path : Option String
  cert_path : Option String
  dir : String
deriving DecidableEq, Repr

/-- clap ArgMatches::value_of for the chroot argument. The chroot Arg
(src/main.rs lines 503-512) is declared without takes_value, so clap stores
no value for it and value_of yields none whether or not the flag was
passed on the command line. -/
def chroot_value_of (_m : CmdMatches) : Option String := none

/-- Rust str::parse::<bool>, as used by clap value_t with a bool target:
only the exact strings true and false parse. -/
def parse_bool (s : String) : Option Bool :=
  if s = "true" then some true else if s = "false" then some false else none

/-- clap value_t!(matches, name, bool): look up the stored value and parse
it; a missing value is an ArgumentNotFound error, collapsed to none here. -/
def value_t_bool (v : Option String) : Option Bool :=
  v.bind parse_bool

/-- get_args (src/main.rs lines 501-610), after clap validation. Note that
should_chroot is computed as value_t!(matches, chroot, bool).unwrap_or(false)
on a flag that stores no value (src/main.rs line 589). -/
def get_args (m : CmdMatches) : Args :=
  { root := m.dir,
    key_path := m.key_path.getD "localhost.key",
    cert_path := m.cert_path.getD "localhost.crt",
    should_chroot := (value_t_bool (chroot_value_of m)).getD false,
    addr := m.addr.getD "[::]:8000",
    uid := m.uid,
    gid := m.gid }

/-- The privileged syscalls drop_privs can issue. -/
inductive PrivCall
  | chdir (dir : String)
  | chroot (dir : String)
  | setgid (gid : Nat)
  | setgroups (gids : List Nat)
  | setuid (uid : Nat)
deriving DecidableEq, Repr

/-- The syscall sequence of drop_privs (src/main.rs lines 641-654) when
nothing fails: chdir to the root, chroot if requested, then setgid and
setgroups for a given GID, then setuid for a given UID. -/
def drop_privs_calls (a : Args) : List PrivCall :=
  PrivCall.chdir a.root ::
    ((if a.should_chroot then [PrivCall.chroot a.root] else []) ++
      (match a.gid with
       | some g => [PrivCall.setgid g, PrivCall.setgroups [g]]
       | none => []) ++
      (match a.uid with
       | some u => [PrivCall.setuid u]
       | none => []))

/-- Run a call sequence against an oracle deciding which calls succeed.
Each call propagates failure immediately, so the performed calls are the
sequence up to and including the first failing one; the flag reports
overall success. -/
def runCalls (ok : PrivCall → Bool) : List PrivCall → List PrivCall × Bool
  | [] => ([], true)
  | c :: rest =>
    if ok c then
      let r := runCalls ok rest
      (c :: r.1, r.2)
    else ([c], false)

/-- drop_privs (src/main.rs lines 641-654) as the trace of performed
privileged calls plus a success flag. -/
def drop_privs (ok : PrivCall → Bool) (a : Args) : List PrivCall × Bool :=
  runCalls ok (drop_privs_calls a)

/-- The externally visible steps of start (src/main.rs lines 656-731). -/
inductive Event
  | loadKeys
  | bindSock
  | priv (c : PrivCall)
  | tlsSetup
  | acceptLoop
deriving DecidableEq, Repr

/-- Whether an event is one of the privileged drop_privs calls. -/
def isPrivEvent : Event → Bool
  | Event.priv _ => true
  | _ => false

/-- start (src/main.rs lines 656-731) as the trace of attempted steps, each
governed by the oracle: load the key and certificate, bind the listener,
drop privileges, build the TLS acceptor, and enter the accept loop. A
failing step (the ? operator) ends the trace. -/
def start_trace (ok : Event → Bool) (a : Args) : List Event :=
  Event.loadKeys ::
    (if ok Event.loadKeys then
      Event.bindSock ::
        (if ok Event.bindSock then
          (let dp := drop_privs (fun c => ok (Event.priv c)) a
           dp.1.map Event.priv ++
             (if dp.2 then
               Event.tlsSetup ::
                 (if ok Event.tlsSetup then [Event.acceptLoop] else [])
              else []))
         else [])
     else [])

/-! ## Output predicates for the normalizer claims -/

/-- No NUL character occurs in the list. -/
def noNulB (l : List Char) : Bool :=
  l.all (fun c => decide (c ≠ '\x00'))

/-- No percent sign occurs in the list. -/
def noPercentB (l : List Char) : Bool :=
  l.all (fun c => decide (c ≠ '%'))

/-- The list does not start with a slash or a dot. -/
def headOkB : List Char → Bool
  | [] => true
  | c :: _ => !(decide (c = '/')) && !(decide (c = '.'))

/-- Every character directly following a slash is neither a slash nor a
dot. Together with headOkB this says no segment is empty in the middle and
no segment starts with a dot. -/
def slashOk : List Char → Bool
  | [] => true
  | [_] => true
  | a :: b :: rest =>
    (if a = '/' then !(decide (b = '/')) && !(decide (b = '.')) else true)
      && slashOk (b :: rest)

/-- No two consecutive slashes occur in the list. -/
def noDoubleSlashB : List Char → Bool
  | [] => true
  | [_] => true
  | a :: b :: rest =>
    !(decide (a = '/') && decide (b = '/')) && noDoubleSlashB (b :: rest)

/-- Split a character list into the path segments delimited by slashes. -/
def splitSegs : List Char → List (List Char)
  | [] => [[]]
  | '/' :: rest => [] :: splitSegs rest
  | c :: rest =>
    match splitSegs rest with
    | [] => [[c]]
    | s :: ss => (c :: s) :: ss

/-- The segment does not start with a dot. -/
def segHeadNotDotB : List Char → Bool
  | [] => true
  | c :: _ => !(decide (c = '.'))

/-- No segment of the list equals the single-dot or double-dot segment. -/
def segsNotDotB (l : List Char) : Bool :=
  (splitSegs l).all (fun s => !(decide (s = ['.'])) && !(decide (s = ['.', '.'])))

/-- Whether a privileged call is a chroot. -/
def isChrootCall : PrivCall → Bool
  | PrivCall.chroot _ => true
  | _ => false

/-! ## Concrete fixtures used by the witness theorems -/

/-- A filesystem holding one regular file that is world-executable but not
user-executable (mode 0o445). -/
def fsPerm : Fs :=
  fun p => if p = "./s" then some ⟨0o445, ObjKind.file, 4, some 7⟩ else none

/-- A filesystem holding one readable regular file whose metadata carries no
modification time. -/
def fsNoMtime : Fs :=
  fun p => if p = "./n" then some ⟨0o644, ObjKind.file, 1, none⟩ else none

/-- A filesystem holding a readable file and a fresher readable gzip
variant of it. -/
def fsGz : Fs :=
  fun p =>
    if p = "./a" then some ⟨0o644, ObjKind.file, 5, some 10⟩
    else if p = "./a.gz" then some ⟨0o644, ObjKind.file, 3, some 20⟩
    else none

/-- A filesystem in which a readable directory contains an index.html that
is itself a readable directory. -/
def fsDirs : Fs :=
  fun p =>
    if p = "./d" then some ⟨0o755, ObjKind.dir, 0, some 1⟩
    else if p = "./d/index.html" then some ⟨0o755, ObjKind.dir, 0, some 1⟩
    else none

/-- The empty filesystem. -/
def fsEmpty : Fs := fun _ => none

/-- A fully populated argument record. -/
def argsW : Args :=
  { root := "/srv/www", key_path := "k.pem", cert_path := "c.pem",
    should_chroot := true, addr := "[::]:8000", uid := some 10, gid := some 20 }

/-! ## Claims about the picky opener -/

/-- C2: picky_open returns a File result only when the stat taken on the
already-opened handle shows a mode with (mode &&& 0o444) = 0o444 and with
(mode &&& 0o101) ≠ 0o001; for every path whose opened object fails either
mode test, picky_open returns the NotFound error, hence neither a File nor
a Dir result. -/
theorem c2_picky_open_mode_policy :
    (∀ (fs : Fs) (p f ct : String) (len m : Nat),
      picky_open fs p = POutcome.ok (FileOrDir.File f ct len m) →
      ∃ obj, fs p = some obj ∧ obj.mode &&& 0o444 = 0o444 ∧
        obj.mode &&& 0o101 ≠ 0o001 ∧ obj.kind = ObjKind.file) ∧
    (∀ (fs : Fs) (p : String) (obj : FsObject), fs p = some obj →
      (obj.mode &&& 0o444 ≠ 0o444 ∨ obj.mode &&& 0o101 = 0o001) →
      picky_open fs p = POutcome.err) := by
  constructor
  · intro fs p f ct len m h
    unfold picky_open at h
    cases hfs : fs p with
    | none => rw [hfs] at h; exact absurd h (by simp)
    | some obj =>
      simp only [hfs] at h
      refine ⟨obj, rfl, ?_⟩
      by_cases hmode : obj.mode &&& 0o444 ≠ 0o444 ∨ obj.mode &&& 0o101 = 0o001
      · rw [if_pos hmode] at h; exact absurd h (by simp)
      · rw [if_neg hmode] at h
        push_neg at hmode
        refine ⟨hmode.1, hmode.2, ?_⟩
        by_cases hk : obj.kind = ObjKind.file
        · exact hk
        · rw [if_neg hk] at h
          by_cases hd : obj.kind = ObjKind.dir
          · rw [if_pos hd] at h; exact absurd h (by simp)
          · rw [if_neg hd] at h; exact absurd h (by simp)
  · intro fs p obj hfs hmode
    unfold picky_open
    simp only [hfs]
    rw [if_pos hmode]

/-- C2 witness: a world-executable but not user-executable file (mode 0o445)
is refused. -/
theorem c2_witness : picky_open fsPerm "./s" = POutcome.err :=
  c2_picky_open_mode_policy.2 fsPerm "./s" ⟨0o445, ObjKind.file, 4, some 7⟩
    (by decide) (Or.inr (by decide))

/-- C10: when a path opens as a regular file that passes the permission
predicate but whose metadata carries no modification time, picky_open
panics (the unwrap of meta.modified()) instead of returning any result. -/
theorem c10_picky_open_panics_without_mtime :
    ∀ (fs : Fs) (p : String) (obj : FsObject), fs p = some obj →
      obj.mode &&& 0o444 = 0o444 → obj.mode &&& 0o101 ≠ 0o001 →
      obj.kind = ObjKind.file → obj.modified = none →
      picky_open fs p = POutcome.panic := by
  intro fs p obj hfs h1 h2 hk hm
  unfold picky_open
  simp only [hfs]
  rw [if_neg (by push_neg; exact ⟨h1, h2⟩), if_pos hk, hm]

/-- C10 witness: a mode 0o644 regular file without a modification time makes
picky_open panic. -/
theorem c10_witness : picky_open fsNoMtime "./n" = POutcome.panic :=
  c10_picky_open_panics_without_mtime fsNoMtime "./n" ⟨0o644, ObjKind.file, 1, none⟩
    (by decide) (by decide) (by decide) (by decide) (by decide)

/-! ## Claims about the variant selector -/

/-- C4: when the base path opens as a regular file, the gzip-aware selector
substitutes the gz variant exactly when the gz path passes picky_open as a
regular file whose modification time is at least the base file's; a
substituted result keeps the original content type and modification time
and takes only the handle and length from the gz file; a strictly older gz
file is never served, and any substitution implies a fresh gz file. -/
theorem c4_gzip_selector :
    ∀ (fs : Fs) (path p f ct : String) (len m : Nat),
      picky_open_with_redirect fs path = (p, POutcome.ok (FileOrDir.File f ct len m)) →
      (∀ (f2 ct2 : String) (len2 m2 : Nat),
        picky_open fs (p ++ ".gz") = POutcome.ok (FileOrDir.File f2 ct2 len2 m2) →
        m ≤ m2 →
        picky_open_with_redirect_and_gzip fs path
          = (p ++ ".gz", POutcome.ok (FileOrDir.File f2 ct len2 m, some "gzip"))) ∧
      (∀ (f2 ct2 : String) (len2 m2 : Nat),
        picky_open fs (p ++ ".gz") = POutcome.ok (FileOrDir.File f2 ct2 len2 m2) →
        m2 < m →
        picky_open_with_redirect_and_gzip fs path
          = (p ++ ".gz", POutcome.ok (FileOrDir.File f ct len m, none))) ∧
      ((picky_open fs (p ++ ".gz") = POutcome.ok FileOrDir.Dir ∨
          picky_open fs (p ++ ".gz") = POutcome.err) →
        picky_open_with_redirect_and_gzip fs path
          = (p ++ ".gz", POutcome.ok (FileOrDir.File f ct len m, none))) ∧
      (∀ (q : String) (r : FileOrDir) (enc : String),
        picky_open_with_redirect_and_gzip fs path = (q, POutcome.ok (r, some enc)) →
        enc = "gzip" ∧
          ∃ (f2 ct2 : String) (len2 m2 : Nat),
            picky_open fs (p ++ ".gz") = POutcome.ok (FileOrDir.File f2 ct2 len2 m2) ∧
            m ≤ m2 ∧ r = FileOrDir.File f2 ct len2 m) := by
  intro fs path p f ct len m h
  refine ⟨?_, ?_, ?_, ?_⟩
  · intro f2 ct2 len2 m2 hgz hle
    unfold picky_open_with_redirect_and_gzip
    simp only [h, hgz]
    rw [if_pos hle]
  · intro f2 ct2 len2 m2 hgz hlt
    unfold picky_open_with_redirect_and_gzip
    simp only [h, hgz]
    rw [if_neg (by omega)]
  · intro hgz
    unfold picky_open_with_redirect_and_gzip
    rcases hgz with hgz | hgz <;> simp only [h, hgz]
  · intro q r enc hres
    unfold picky_open_with_redirect_and_gzip at hres
    simp only [h] at hres
    cases hgz : picky_open fs (p ++ ".gz") with
    | ok v =>
      cases v with
      | File f2 ct2 len2 m2 =>
        simp only [hgz] at hres
        by_cases hle : m ≤ m2
        · rw [if_pos hle] at hres
          injection hres with hq hr
          injection hr with hr
          injection hr with hfd henc
          injection henc with henc
          exact ⟨henc.symm, f2, ct2, len2, m2, rfl, hle, hfd.symm⟩
        · rw [if_neg hle] at hres
          exact absurd hres (by simp)
      | Dir =>
        simp only [hgz] at hres
        exact absurd hres (by simp)
    | err =>
      simp only [hgz] at hres
      exact absurd hres (by simp)
    | panic =>
      simp only [hgz] at hres
      exact absurd hres (by simp)

/-- C4 witness: with a base file of mtime 10 and a gz variant of mtime 20
and length 3, the selector serves the gz handle and length under the
original content type and modification time. -/
theorem c4_witness :
    picky_open_with_redirect_and_gzip fsGz "./a"
      = ("./a.gz", POutcome.ok (FileOrDir.File "./a.gz" "text/plain" 3 10, some "gzip")) :=
  (c4_gzip_selector fsGz "./a" "./a" "./a" "text/plain" 5 10 (by decide)).1
    "./a.gz" "text/plain" 3 20 (by decide) (by omega)

/-- C5: when the picky open of a path yields Dir, the redirecting open
appends /index.html exactly once and returns that second open's result
unchanged; when the second open yields Dir again, the request handler
reports the bare 404 for both the gzip-accepting and the plain pipeline. -/
theorem c5_index_redirect :
    ∀ (fs : Fs) (p : String),
      picky_open fs p = POutcome.ok FileOrDir.Dir →
      picky_open_with_redirect fs p
        = (p ++ "/index.html", picky_open fs (p ++ "/index.html")) ∧
      (picky_open fs (p ++ "/index.html") = POutcome.ok FileOrDir.Dir →
        ∀ (method : Method) (rawPath : String) (headers : List String),
          (method = Method.GET ∨ method = Method.HEAD) →
          sanitize_path rawPath = p →
          serve_files fs method rawPath headers = some notFoundResponse) := by
  intro fs p hdir
  have hred : picky_open_with_redirect fs p
      = (p ++ "/index.html", picky_open fs (p ++ "/index.html")) := by
    unfold picky_open_with_redirect
    simp only [hdir]
  refine ⟨hred, ?_⟩
  intro hdir2 method rawPath headers hm hsan
  have hvar : ∀ gz, selectVariant fs gz p = (p ++ "/index.html", POutcome.ok (FileOrDir.Dir, none)) := by
    intro gz
    cases gz with
    | false => simp [selectVariant, hred, hdir2]
    | true => simp [selectVariant, picky_open_with_redirect_and_gzip, hred, hdir2]
  rcases hm with hm | hm <;> subst hm <;>
    simp only [serve_files, hsan, hvar, handleOutcome]

/-- C5 witness: a directory whose index.html is itself a directory produces
the bare 404. -/
theorem c5_witness : serve_files fsDirs Method.GET "/d" [] = some notFoundResponse :=
  (c5_index_redirect fsDirs "./d" (by decide)).2 (by decide) Method.GET "/d" []
    (Or.inl rfl) (by decide)

/-! ## Claims about the request handler -/

/-- Any response handleOutcome produces is a 200 or the bare 404. -/
theorem handleOutcome_status (method : Method) (o : POutcome (FileOrDir × Option String))
    (r : Response) (h : handleOutcome method o = some r) :
    r.status = 200 ∨ r = notFoundResponse := by
  unfold handleOutcome at h
  cases o with
  | ok v =>
    obtain ⟨fd, enc⟩ := v
    cases fd with
    | File f ct len m =>
      simp only [Option.some.injEq] at h
      exact Or.inl (by rw [← h])
    | Dir => simp only [Option.some.injEq] at h; exact Or.inr h.symm
  | err => simp only [Option.some.injEq] at h; exact Or.inr h.symm
  | panic => exact absurd h (by simp)

/-- C6: every response the handler produces has status 200 or is the bare
404 response (empty body, no resource headers) and in particular is never
a 403 or a 500; every method other than GET and HEAD gets the bare 404;
and for GET and HEAD a failed open of the sanitized path gets the bare
404. -/
theorem c6_statuses :
    (∀ (fs : Fs) (method : Method) (rawPath : String) (headers : List String)
       (r : Response),
      serve_files fs method rawPath headers = some r →
      (r.status = 200 ∨ r = notFoundResponse) ∧ r.status ≠ 403 ∧ r.status ≠ 500) ∧
    (∀ (fs : Fs) (method : Method) (rawPath : String) (headers : List String),
      method ≠ Method.GET → method ≠ Method.HEAD →
      serve_files fs method rawPath headers = some notFoundResponse) ∧
    (∀ (fs : Fs) (method : Method) (rawPath : String) (headers : List String),
      (method = Method.GET ∨ method = Method.HEAD) →
      picky_open fs (sanitize_path rawPath) = POutcome.err →
      serve_files fs method rawPath headers = some notFoundResponse) := by
  refine ⟨?_, ?_, ?_⟩
  · intro fs method rawPath headers r h
    have hst : r.status = 200 ∨ r = notFoundResponse := by
      cases method <;> simp only [serve_files] at h
      case GET => exact handleOutcome_status _ _ _ h
      case HEAD => exact handleOutcome_status _ _ _ h
      all_goals exact Or.inr (by injection h with h; exact h.symm)
    rcases hst with h200 | hnf
    · exact ⟨Or.inl h200, by simp [h200], by simp [h200]⟩
    · exact ⟨Or.inr hnf, by simp [hnf, notFoundResponse], by simp [hnf, notFoundResponse]⟩
  · intro fs method rawPath headers hg hh
    cases method <;> simp only [serve_files] <;> first
      | rfl
      | exact absurd rfl hg
      | exact absurd rfl hh
  · intro fs method rawPath headers hm hopen
    have hsel : ∀ gz, (selectVariant fs gz (sanitize_path rawPath)).2 = POutcome.err := by
      intro gz
      have hred : picky_open_with_redirect fs (sanitize_path rawPath)
          = (sanitize_path rawPath, POutcome.err) := by
        unfold picky_open_with_redirect
        simp only [hopen]
      cases gz with
      | false => simp [selectVariant, hred]
      | true => simp [selectVariant, picky_open_with_redirect_and_gzip, hred]
    rcases hm with hm | hm <;> subst hm <;>
      simp only [serve_files, hsel, handleOutcome]

/-- C6 witness: a POST request gets the bare 404 on any filesystem. -/
theorem c6_witness : serve_files fsEmpty Method.POST "/index.html" [] = some notFoundResponse :=
  c6_statuses.2.1 fsEmpty Method.POST "/index.html" [] (by decide) (by decide)

/-! ## Claims about argument handling and the privilege drop -/

/-- C3: the chroot flag is ignored. get_args computes should_chroot with
clap value_t on the valueless chroot flag, which always fails and defaults
to false, so no argument vector makes drop_privs issue a chroot call. The
in-source help text says the flag makes the server chroot into DIR, so
this contradicts the code's own documentation. -/
theorem c3_chroot_flag_ignored :
    ∀ m : CmdMatches, (get_args m).should_chroot = false ∧
      (drop_privs_calls (get_args m)).all (fun c => !(isChrootCall c)) = true := by
  intro m
  constructor
  · rfl
  · show (drop_privs_calls (get_args m)).all (fun c => !(isChrootCall c)) = true
    have hs : (get_args m).should_chroot = false := rfl
    unfold drop_privs_calls
    rw [hs]
    cases hg : (get_args m).gid <;> cases hu : (get_args m).uid <;>
      simp [isChrootCall]

/-- The calls actually performed by drop_privs are an initial portion of
the full drop_privs_calls sequence. -/
theorem runCalls_front (ok : PrivCall → Bool) :
    ∀ l : List PrivCall, ∃ t, (runCalls ok l).1 ++ t = l := by
  intro l
  induction l with
  | nil => exact ⟨[], rfl⟩
  | cons c rest ih =>
    by_cases h : ok c
    · obtain ⟨t, ht⟩ := ih
      exact ⟨t, by simp [runCalls, h, ht]⟩
    · exact ⟨rest, by simp [runCalls, h]⟩

/-- When drop_privs succeeds it has performed every call of the sequence. -/
theorem runCalls_complete (ok : PrivCall → Bool) :
    ∀ l : List PrivCall, (runCalls ok l).2 = true → (runCalls ok l).1 = l := by
  intro l
  induction l with
  | nil => intro _; rfl
  | cons c rest ih =>
    intro h
    by_cases hc : ok c
    · simp [runCalls, hc] at h ⊢
      exact ih h
    · simp [runCalls, hc] at h

/-- C8: the privilege-drop calls appear in the startup trace as one
contiguous block, strictly after the socket bind and strictly before the
accept loop; the performed calls are an initial portion of the ordered
sequence chdir, then chroot (if requested), then setgid and setgroups (if
a GID was given), then setuid (if a UID was given), the whole sequence
when the drop succeeds; if loading keys or binding fails no privileged
call happens, and if any privileged call fails the accept loop is never
entered. -/
theorem c8_privilege_drop_sequencing :
    ∀ (ok : Event → Bool) (a : Args),
      (∃ t, (drop_privs (fun c => ok (Event.priv c)) a).1 ++ t = drop_privs_calls a) ∧
      ((drop_privs (fun c => ok (Event.priv c)) a).2 = true →
        (drop_privs (fun c => ok (Event.priv c)) a).1 = drop_privs_calls a) ∧
      (ok Event.loadKeys = true → ok Event.bindSock = true →
        ∃ post, start_trace ok a
            = Event.loadKeys :: Event.bindSock ::
                ((drop_privs (fun c => ok (Event.priv c)) a).1.map Event.priv ++ post) ∧
          post.all (fun e => !(isPrivEvent e)) = true ∧
          (Event.acceptLoop ∈ post ↔
            ((drop_privs (fun c => ok (Event.priv c)) a).2 = true ∧
              ok Event.tlsSetup = true))) ∧
      ((ok Event.loadKeys = false ∨ ok Event.bindSock = false) →
        (start_trace ok a).all (fun e => !(isPrivEvent e)) = true ∧
          Event.acceptLoop ∉ start_trace ok a) ∧
      ((drop_privs (fun c => ok (Event.priv c)) a).2 = false →
        Event.acceptLoop ∉ start_trace ok a) := by
  intro ok a
  refine ⟨runCalls_front _ _, runCalls_complete _ _, ?_, ?_, ?_⟩
  · intro hlk hbs
    refine ⟨(if (drop_privs (fun c => ok (Event.priv c)) a).2 then
        Event.tlsSetup :: (if ok Event.tlsSetup then [Event.acceptLoop] else [])
      else []), ?_, ?_, ?_⟩
    · simp only [start_trace, hlk, hbs, if_true]
    · cases hdp : (drop_privs (fun c => ok (Event.priv c)) a).2 <;>
        cases hts : ok Event.tlsSetup <;> simp [isPrivEvent]
    · cases hdp : (drop_privs (fun c => ok (Event.priv c)) a).2 <;>
        cases hts : ok Event.tlsSetup <;> simp
  · intro hfail
    rcases hfail with hf | hf
    · simp [start_trace, hf, isPrivEvent]
    · cases hlk : ok Event.loadKeys
      · simp [start_trace, hlk, isPrivEvent]
      · simp [start_trace, hlk, hf, isPrivEvent]
  · intro hdp
    cases hlk : ok Event.loadKeys
    · simp [start_trace, hlk]
    · cases hbs : ok Event.bindSock
      · simp [start_trace, hlk, hbs]
      · simp [start_trace, hlk, hbs, hdp]

/-- C8 witness: with every step succeeding and all options set, the whole
ordered call sequence is performed. -/
theorem c8_witness :
    (drop_privs (fun _ => true) argsW).1 = drop_privs_calls argsW :=
  (c8_privilege_drop_sequencing (fun _ => true) argsW).2.1 (by decide)

/-! ## Equation lemmas for the normalizer -/

theorem sanF_nil (st : SanState) : sanitizeFrom st [] = [] := by
  cases st <;> rfl

theorem sanF_nul (st : SanState) (rest : List Char) :
    sanitizeFrom st ('\x00' :: rest) = '_' :: sanitizeFrom SanState.Normal rest := by
  cases st <;> rfl

theorem sanF_n_slash (rest : List Char) :
    sanitizeFrom SanState.Normal ('/' :: rest) = '/' :: sanitizeFrom SanState.Slash rest := rfl

theorem sanF_s_slash (rest : List Char) :
    sanitizeFrom SanState.Slash ('/' :: rest) = sanitizeFrom SanState.Slash rest := rfl

theorem sanF_s_dot (rest : List Char) :
    sanitizeFrom SanState.Slash ('.' :: rest) = ':' :: sanitizeFrom SanState.Normal rest := rfl

theorem sanF_n_other (c : Char) (rest : List Char) (h0 : c ≠ '\x00') (h1 : c ≠ '/') :
    sanitizeFrom SanState.Normal (c :: rest) = c :: sanitizeFrom SanState.Normal rest := by
  simp [sanitizeFrom, h0, h1]

theorem sanF_s_other (c : Char) (rest : List Char) (h0 : c ≠ '\x00') (h1 : c ≠ '/')
    (h2 : c ≠ '.') :
    sanitizeFrom SanState.Slash (c :: rest) = c :: sanitizeFrom SanState.Normal rest := by
  simp [sanitizeFrom, h0, h1, h2]

theorem pd_cons_ne (c : Char) (rest : List Char) (h : c ≠ '%') :
    percentDecode (c :: rest) = c :: percentDecode rest := by
  simp [percentDecode, h]

theorem slashOk_cons (c : Char) (l : List Char) :
    slashOk (c :: l) = ((if c = '/' then headOkB l else true) && slashOk l) := by
  cases l with
  | nil => by_cases h : c = '/' <;> simp [slashOk, headOkB, h]
  | cons b r => rfl

/-! ## Structural invariants of the sanitizer output -/

/-- The sanitizer output contains no NUL, has no slash or dot after a
slash, and (when started in Slash state) does not begin with a slash or a
dot. -/
theorem sanitizeFrom_inv :
    ∀ (l : List Char) (st : SanState),
      noNulB (sanitizeFrom st l) = true ∧
      slashOk (sanitizeFrom st l) = true ∧
      (st = SanState.Slash → headOkB (sanitizeFrom st l) = true) := by
  intro l
  induction l with
  | nil => intro st; simp [sanF_nil, noNulB, slashOk, headOkB]
  | cons c rest ih =>
    intro st
    by_cases h0 : c = '\x00'
    · subst h0
      obtain ⟨ih1, ih2, -⟩ := ih SanState.Normal
      rw [sanF_nul]
      refine ⟨?_, ?_, ?_⟩
      · simp [noNulB] at ih1 ⊢; exact ih1
      · rw [slashOk_cons]; simp [ih2]
      · intro _; simp [headOkB]
    · by_cases h1 : c = '/'
      · subst h1
        cases st with
        | Normal =>
          obtain ⟨ih1, ih2, ih3⟩ := ih SanState.Slash
          rw [sanF_n_slash]
          refine ⟨?_, ?_, ?_⟩
          · simp [noNulB] at ih1 ⊢; exact ih1
          · rw [slashOk_cons]; simp [ih2, ih3 rfl]
          · intro hcontra; exact absurd hcontra (by decide)
        | Slash =>
          obtain ⟨ih1, ih2, ih3⟩ := ih SanState.Slash
          rw [sanF_s_slash]
          exact ⟨ih1, ih2, fun _ => ih3 rfl⟩
      · by_cases h2 : st = SanState.Slash ∧ c = '.'
        · obtain ⟨hst, hc⟩ := h2
          subst hst
          subst hc
          obtain ⟨ih1, ih2, -⟩ := ih SanState.Normal
          rw [sanF_s_dot]
          refine ⟨?_, ?_, ?_⟩
          · simp [noNulB] at ih1 ⊢; exact ih1
          · rw [slashOk_cons]; simp [ih2]
          · intro _; simp [headOkB]
        · cases st with
          | Normal =>
            obtain ⟨ih1, ih2, -⟩ := ih SanState.Normal
            rw [sanF_n_other c rest h0 h1]
            refine ⟨?_, ?_, ?_⟩
            · simp [noNulB] at ih1 ⊢; exact ⟨h0, ih1⟩
            · rw [slashOk_cons]; simp [h1, ih2]
            · intro hcontra; exact absurd hcontra (by decide)
          | Slash =>
            have hc : c ≠ '.' := fun hdot => h2 ⟨rfl, hdot⟩
            obtain ⟨ih1, ih2, -⟩ := ih SanState.Normal
            rw [sanF_s_other c rest h0 h1 hc]
            refine ⟨?_, ?_, ?_⟩
            · simp [noNulB] at ih1 ⊢; exact ⟨h0, ih1⟩
            · rw [slashOk_cons]; simp [h1, ih2]
            · intro _; simp [headOkB, h1, hc]

/-- A list whose post-slash characters are never slashes contains no two
consecutive slashes. -/
theorem slashOk_noDouble : ∀ l : List Char, slashOk l = true → noDoubleSlashB l = true := by
  intro l
  induction l with
  | nil => intro _; rfl
  | cons c rest ih =>
    intro h
    cases rest with
    | nil => rfl
    | cons b r =>
      rw [slashOk_cons] at h
      simp only [Bool.and_eq_true] at h
      obtain ⟨hcb, hrest⟩ := h
      show (!(decide (c = '/') && decide (b = '/')) && noDoubleSlashB (b :: r)) = true
      simp only [Bool.and_eq_true]
      refine ⟨?_, ih hrest⟩
      by_cases hc : c = '/'
      · rw [if_pos hc] at hcb
        simp [headOkB] at hcb
        simp [hc, hcb.1]
      · simp [hc]

theorem splitSegs_ne_nil : ∀ l : List Char, splitSegs l ≠ [] := by
  intro l
  cases l with
  | nil => simp [splitSegs]
  | cons c rest =>
    by_cases h : c = '/'
    · subst h; simp [splitSegs]
    · cases hs : splitSegs rest <;> simp [splitSegs, h, hs]

theorem splitSegs_slash (rest : List Char) :
    splitSegs ('/' :: rest) = [] :: splitSegs rest := rfl

theorem splitSegs_cons (c : Char) (rest : List Char) (h : c ≠ '/') :
    splitSegs (c :: rest)
      = match splitSegs rest with
        | [] => [[c]]
        | s :: ss => (c :: s) :: ss := by
  simp [splitSegs, h]

/-- In a list with no slash or dot after any slash, no segment other than
possibly the first starts with a dot; and if the list also does not start
with a dot, no segment at all starts with a dot. -/
theorem segs_aux : ∀ l : List Char, slashOk l = true →
    ((splitSegs l).tail.all segHeadNotDotB = true ∧
      (headOkB l = true → (splitSegs l).all segHeadNotDotB = true)) := by
  intro l
  induction l with
  | nil => intro _; exact ⟨rfl, fun _ => rfl⟩
  | cons c rest ih =>
    intro h
    rw [slashOk_cons] at h
    simp only [Bool.and_eq_true] at h
    obtain ⟨hcond, hrest⟩ := h
    by_cases hc : c = '/'
    · subst hc
      rw [if_pos rfl] at hcond
      obtain ⟨-, ihf⟩ := ih hrest
      have hall := ihf hcond
      rw [splitSegs_slash]
      constructor
      · simpa using hall
      · intro _
        simp [segHeadNotDotB, hall]
    · obtain ⟨iht, -⟩ := ih hrest
      rw [splitSegs_cons c rest hc]
      cases hs : splitSegs rest with
      | nil => exact absurd hs (splitSegs_ne_nil rest)
      | cons s ss =>
        rw [hs] at iht
        simp only [List.tail_cons] at iht
        constructor
        · simpa using iht
        · intro hh
          simp [headOkB] at hh
          simp [segHeadNotDotB, hh.2, iht]

/-- Segments not starting with a dot are neither the single-dot nor the
double-dot segment. -/
theorem segsNotDot_of_heads : ∀ L : List (List Char), L.all segHeadNotDotB = true →
    L.all (fun s => !(decide (s = ['.'])) && !(decide (s = ['.', '.']))) = true := by
  intro L hL
  rw [List.all_eq_true] at hL ⊢
  intro s hs
  have hhead := hL s hs
  cases s with
  | nil => simp
  | cons a t =>
    simp [segHeadNotDotB] at hhead
    simp only [Bool.and_eq_true, Bool.not_eq_eq_eq_not, Bool.not_true, decide_eq_false_iff_not]
    constructor
    · intro hcontra
      injection hcontra with ha _
      exact hhead ha
    · intro hcontra
      injection hcontra with ha _
      exact hhead ha

/-! ## Claims about the normalizer -/

/-- C1: for every input string the normalizer output begins with the two
characters dot slash, contains no NUL, contains no two consecutive
slashes, and (beyond the mandatory leading dot-slash marker, which is
itself the first slash-delimited field) no path segment equal to the
single-dot or double-dot segment. -/
theorem c1_normalizer_invariants :
    ∀ s : String,
      ∃ rest, (sanitize_path s).data = '.' :: '/' :: rest ∧
        noNulB ('.' :: '/' :: rest) = true ∧
        noDoubleSlashB ('.' :: '/' :: rest) = true ∧
        segsNotDotB rest = true := by
  intro s
  obtain ⟨hnul, hso, hh⟩ := sanitizeFrom_inv (percentDecode s.data) SanState.Slash
  have hh' := hh rfl
  refine ⟨sanitizeFrom SanState.Slash (percentDecode s.data), rfl, ?_, ?_, ?_⟩
  · simp [noNulB] at hnul ⊢
    exact hnul
  · apply slashOk_noDouble
    rw [slashOk_cons, slashOk_cons]
    simp [hso, hh']
  · unfold segsNotDotB
    exact segsNotDot_of_heads _ ((segs_aux _ hso).2 hh')

/-! ## Claims about the percent decoder -/

theorem hexit_lt : ∀ (c : Char) (n : Nat), hexit c = some n → n < 16 := by
  intro c n h
  unfold hexit at h
  split at h
  · next hc =>
    have h1 : c.toNat ≤ 57 := hc.2
    simp at h
    omega
  · split at h
    · next hc =>
      have h1 : c.toNat ≤ 70 := hc.2
      have h2 : 65 ≤ c.toNat := hc.1
      simp at h
      omega
    · split at h
      · next hc =>
        have h1 : c.toNat ≤ 102 := hc.2
        have h2 : 97 ≤ c.toNat := hc.1
        simp at h
        omega
      · exact absurd h (by simp)

theorem char_ofNat_toNat : ∀ n : Nat, n < 55296 → (Char.ofNat n).toNat = n := by
  intro n h
  have hv : n.isValidChar := Or.inl h
  simp [Char.ofNat, hv, Char.ofNatAux, Char.toNat, UInt32.toNat]

theorem shiftOr_eq (hx hy : Nat) (h : hy < 16) : hx <<< 4 ||| hy = 16 * hx + hy := by
  have hy' : hy < 2 ^ 4 := by norm_num; omega
  rw [Nat.shiftLeft_eq, Nat.mul_comm hx (2 ^ 4), ← Nat.mul_add_lt_is_or hy' hx]

/-- C7: a well-formed escape percent-x-y with both hex digits decodes in
one step to the single character whose code point is the two-digit hex
value, with the remainder decoded independently (one pass, so decoded
percent signs are not reinterpreted and the concrete case percent-2525
normalizes to dot-slash-percent-25); a malformed escape emits the literal
percent followed by the consumed characters in order and resumes normal
processing. -/
theorem c7_percent_decoding :
    (∀ (x y : Char) (rest : List Char) (hx hy : Nat),
      hexit x = some hx → hexit y = some hy →
      percentDecode ('%' :: x :: y :: rest)
          = Char.ofNat (hx <<< 4 ||| hy) :: percentDecode rest ∧
        (Char.ofNat (hx <<< 4 ||| hy)).toNat = 16 * hx + hy) ∧
    (∀ (x y : Char) (rest : List Char),
      hexit x = none ∨ hexit y = none →
      percentDecode ('%' :: x :: y :: rest) = '%' :: x :: y :: percentDecode rest) ∧
    (∀ x : Char, percentDecode ['%', x] = ['%', x]) ∧
    percentDecode ['%'] = ['%'] ∧
    sanitize_path "%2525" = "./%25" := by
  refine ⟨?_, ?_, ?_, rfl, by decide⟩
  · intro x y rest hx hy h1 h2
    refine ⟨by simp [percentDecode, h1, h2], ?_⟩
    have hx16 := hexit_lt x hx h1
    have hy16 := hexit_lt y hy h2
    have hlt : 16 * hx + hy < 55296 := by omega
    rw [shiftOr_eq hx hy hy16]
    exact char_ofNat_toNat _ hlt
  · intro x y rest h
    rcases h with h | h <;> simp [percentDecode, h]
  · intro x; rfl

/-- C7 witness: percent-41 decodes to A, and the malformed percent-4-g is
preserved literally. -/
theorem c7_witness :
    percentDecode ['%', '4', '1'] = ['A'] ∧
      percentDecode ['%', '4', 'g'] = ['%', '4', 'g'] := by
  constructor
  · have h := (c7_percent_decoding.1 '4' '1' [] 4 1 (by decide) (by decide)).1
    rw [h]
    decide
  · exact c7_percent_decoding.2.1 '4' 'g' [] (Or.inr (by decide))

/-! ## Claims about renormalization -/

theorem percentDecode_id : ∀ l : List Char, noPercentB l = true → percentDecode l = l := by
  intro l
  induction l with
  | nil => intro _; rfl
  | cons c rest ih =>
    intro h
    simp [noPercentB] at h
    obtain ⟨hc, hrest⟩ := h
    rw [pd_cons_ne c rest hc, ih (by simp [noPercentB]; exact hrest)]

/-- The sanitizer fixes every NUL-free list whose post-slash characters are
never slashes or dots, provided (for the Slash start state) the list also
does not begin with a slash or a dot. -/
theorem sanitizeFrom_fix :
    ∀ l : List Char, noNulB l = true → slashOk l = true →
      (sanitizeFrom SanState.Normal l = l ∧
        (headOkB l = true → sanitizeFrom SanState.Slash l = l)) := by
  intro l
  induction l with
  | nil => intro _ _; exact ⟨sanF_nil _, fun _ => sanF_nil _⟩
  | cons c rest ih =>
    intro hn hs
    simp [noNulB] at hn
    obtain ⟨hc0, hnrest⟩ := hn
    have hnrest' : noNulB rest = true := by simp [noNulB]; exact hnrest
    rw [slashOk_cons] at hs
    simp only [Bool.and_eq_true] at hs
    obtain ⟨hcond, hsrest⟩ := hs
    obtain ⟨ihN, ihS⟩ := ih hnrest' hsrest
    constructor
    · by_cases h1 : c = '/'
      · subst h1
        rw [if_pos rfl] at hcond
        rw [sanF_n_slash, ihS hcond]
      · rw [sanF_n_other c rest hc0 h1, ihN]
    · intro hh
      simp [headOkB] at hh
      rw [sanF_s_other c rest hc0 hh.1 hh.2, ihN]

/-- C9 counterexample: the output dot-slash (the normalization of the
empty string) begins with dot-slash and has no dot segments, yet
normalizing it again yields dot-slash-colon-slash, not itself; moreover
even the percent-containing output dot-slash-percent-25 loses its escape
on renormalization of its tail, percent-25 renormalizing to
dot-slash-percent. -/
theorem c9_counterexample :
    sanitize_path "" = "./" ∧ sanitize_path "./" = "./:/" ∧
      sanitize_path (sanitize_path "") ≠ sanitize_path "" ∧
      sanitize_path "%2525" = "./%25" ∧ sanitize_path "%25" = "./%" := by
  exact ⟨by decide, by decide, by decide, by decide, by decide⟩

/-- C9 amended: normalization is not idempotent on its outputs (the
leading dot of the dot-slash prefix is rewritten to a colon, and percent
escapes are decoded again); what holds is that for every output whose
characters contain no percent sign, re-normalizing the output with its
two-character dot-slash prefix removed reproduces the output exactly. -/
theorem c9_amended_renormalization :
    ∀ x : String, noPercentB (sanitize_path x).data = true →
      sanitize_path ⟨(sanitize_path x).data.drop 2⟩ = sanitize_path x := by
  intro x hp
  obtain ⟨hnul, hso, hh⟩ := sanitizeFrom_inv (percentDecode x.data) SanState.Slash
  have hh' := hh rfl
  have hdata : (sanitize_path x).data
      = '.' :: '/' :: sanitizeFrom SanState.Slash (percentDecode x.data) := rfl
  rw [hdata] at hp
  have hpd : noPercentB (sanitizeFrom SanState.Slash (percentDecode x.data)) = true := by
    simp [noPercentB] at hp ⊢
    exact hp
  rw [hdata]
  show sanitize_path ⟨sanitizeFrom SanState.Slash (percentDecode x.data)⟩
      = ⟨'.' :: '/' :: sanitizeFrom SanState.Slash (percentDecode x.data)⟩
  unfold sanitize_path sanitize
  congr 1
  rw [percentDecode_id _ hpd, (sanitizeFrom_fix _ hnul hso).2 hh']

/-- C9 amended witness: the percent-free output dot-slash-a of input
slash-a renormalizes from its tail to itself. -/
theorem c9_witness : sanitize_path ⟨(sanitize_path "/a").data.drop 2⟩ = sanitize_path "/a" :=
  c9_amended_renormalization "/a" (by decide)

end Httpd2

